/-
Verification of the chiba-cable guide/remote/cache core.

Shallow embedding of:
  - apps/guide/src/lib/guide.ts        (normalizeChannelNumber, isHiddenChannel,
                                        clamp, getCurrentSlotIndex)
  - apps/server/src/index-builder-config.ts (buildSchedule)
  - apps/guide/src/hooks/usePreloadManager.ts and the inline copy in App.tsx
                                       (getMediaKind, shouldPreload,
                                        prunePreloadCache, queuePreload,
                                        preview attach effect)
  - apps/guide/src/App.tsx             (commitDial, pushDialDigit, the dial
                                        buffer effect, handleChannelChange,
                                        handleTuneToNumber, openProgram,
                                        getProgramForChannel)
  - apps/server/src/index.ts           (WebSocket message handler)
  - apps/guide/src/hooks/useRemoteSocket.ts (socket message listener)

Modeling conventions: JS numbers that hold integral values are Int or Nat;
Date values are millisecond offsets; JS `%` on Int is Int.tmod; Math.floor of
an integer quotient with positive divisor is Int.fdiv; DOM side effects
(element creation/removal) are dropped, message sends are collected in lists;
JSON.parse and the WebSocket are external, so a parse result enters the model
as an Option-typed parameter.
-/
import Mathlib

namespace ChibaCable

/-- Model of JS `Number.parseInt(s, 10)`: skip leading whitespace, optional
sign, then a maximal run of decimal digits; `none` models `NaN` (no digits).
IEEE-754 rounding of integers beyond 2^53 is not modeled. -/
def jsParseInt (s : String) : Option Int :=
  let cs := s.toList.dropWhile Char.isWhitespace
  let signed : Int × List Char :=
    match cs with
    | '-' :: rest => (-1, rest)
    | '+' :: rest => (1, rest)
    | rest => (1, rest)
  let digits := signed.2.takeWhile Char.isDigit
  if digits.isEmpty then none
  else
    some (signed.1 * (digits.foldl (fun acc c => acc * 10 + (c.toNat - '0'.toNat)) 0 : Nat))

/-- From guide.ts: `clamp(value, min, max) = Math.min(Math.max(value, min), max)`. -/
def clamp (value lo hi : Int) : Int :=
  min (max value lo) hi

/-- Model of JS `String.prototype.trim`: strip whitespace at both ends.
Written over the character list so the kernel can evaluate it. -/
def jsTrim (s : String) : String :=
  String.mk (((s.toList.dropWhile Char.isWhitespace).reverse.dropWhile
    Char.isWhitespace).reverse)

/-- Model of JS `String.prototype.split` with a single-character separator:
`"".split(sep)` is `[""]`, separators at the ends produce empty fields. -/
def jsSplitChar (sep : Char) : List Char → List (List Char)
  | [] => [[]]
  | c :: rest =>
    let r := jsSplitChar sep rest
    if c = sep then [] :: r
    else
      match r with
      | [] => [[c]]
      | h :: t => (c :: h) :: t

/-- From guide.ts `normalizeChannelNumber`: trim, reject empty, parse base-10. -/
def normalizeChannelNumber (value : String) : Option Int :=
  let trimmed := jsTrim value
  if trimmed = "" then none
  else jsParseInt trimmed

/-- From App.tsx: `const GODMODE_CHANNEL_NUMBER = "067"`. -/
def GODMODE_CHANNEL_NUMBER : String := "067"

/-- From App.tsx: `const DEBUG_CHANNEL_NUMBER = "026"`. -/
def DEBUG_CHANNEL_NUMBER : String := "026"

/-- From App.tsx: `const GODMODE_CHANNEL_ID = "godmode"`. -/
def GODMODE_CHANNEL_ID : String := "godmode"

/-- From App.tsx: `const DEBUG_CHANNEL_ID = "debug"`. -/
def DEBUG_CHANNEL_ID : String := "debug"

/-- From guide.ts `getCurrentSlotIndex`. `now` enters as `msOfDay`, the
milliseconds since midnight of the current day; `start.setHours(h, m, 0, 0)`
makes the start instant `h*3600000 + m*60000` past the same midnight, so
`diffMs = msOfDay - startMs`. `Math.floor` of the quotient is `Int.fdiv`. -/
def getCurrentSlotIndex (msOfDay : Int) (startTime : String)
    (slotMinutes slotCount : Int) : Int :=
  let parts := (jsSplitChar ':' startTime.toList).map String.mk
  match jsParseInt (parts.getD 0 ""), jsParseInt (parts.getD 1 "") with
  | some startHour, some startMinute =>
    if slotMinutes ≤ 0 then 0
    else
      let startMs := startHour * 3600000 + startMinute * 60000
      let diffMs := msOfDay - startMs
      let slotIndex := Int.fdiv diffMs (slotMinutes * 60000)
      clamp slotIndex 0 (max 0 (slotCount - 1))
  | _, _ => 0

/-- From index-builder-config.ts / types: a schedule slot. The source field
`end` is a Lean keyword, so it is modeled as `stop`. -/
structure ProgramSlot where
  title : String
  subtitle : Option String := none
  tag : Option String := none
  url : Option String := none
  durationSec : Option Nat := none
  start : Nat
  span : Nat
  stop : Nat
  deriving DecidableEq, Repr

/-- From guide types: the channel fields used by the tuning and stepping
logic (`id`, `number`, `schedule`); presentation-only fields are omitted. -/
structure GuideChannel where
  id : String
  number : String
  schedule : List ProgramSlot := []
  deriving DecidableEq, Repr

/-- From App.tsx `isHiddenChannel`: a channel is hidden when its id or parsed
number matches the god-mode or debug pseudo-channel. -/
def isHiddenChannel (channel : GuideChannel) : Bool :=
  let number := normalizeChannelNumber channel.number
  channel.id = GODMODE_CHANNEL_ID ∨ channel.id = DEBUG_CHANNEL_ID ∨
    number = normalizeChannelNumber GODMODE_CHANNEL_NUMBER ∨
    number = normalizeChannelNumber DEBUG_CHANNEL_NUMBER

/-- From config.ts `ChannelManifest["programs"]`: the fields `buildSchedule`
consumes. The media URL that the source derives from `program.source` (a
sha1-named `/media/...` path or a raw URL) enters the model precomputed as
`url`. -/
structure ManifestProgram where
  title : String
  subtitle : Option String := none
  tag : Option String := none
  duration_slots : Option Int := none
  url : Option String := none
  deriving DecidableEq, Repr

/-- The `!programs.length` branch of `buildSchedule`: width-1 "Off Air" filler
from `cursor` up to `slotCount`. The `while` loop is driven by a fuel
argument; `slotCount` fuel always suffices since each pass consumes a slot. -/
def offAirLoop (slotMinutes slotCount : Nat) : Nat → Nat → List ProgramSlot
  | 0, _ => []
  | fuel + 1, cursor =>
    if cursor < slotCount then
      { title := "Off Air", subtitle := some "Standby", tag := some "ID",
        start := cursor, span := 1, stop := cursor,
        durationSec := some (slotMinutes * 60) }
        :: offAirLoop slotMinutes slotCount fuel (cursor + 1)
    else []

/-- The main `while (cursor < slotCount)` loop of `buildSchedule`: programs
are consumed cyclically (`programs[programIndex % programs.length]`), each
taking `min(max(1, duration_slots ?? 1), slotCount - cursor)` slots. Driven
by fuel; each pass consumes at least one slot, so `slotCount` fuel suffices. -/
def buildScheduleGo (programs : List ManifestProgram) (slotCount slotMinutes : Nat) :
    Nat → Nat → Nat → List ProgramSlot
  | 0, _, _ => []
  | fuel + 1, cursor, programIndex =>
    if cursor < slotCount then
      let program := programs.getD (programIndex % programs.length)
        { title := "" }
      let span := (min (max 1 (program.duration_slots.getD 1))
        ((slotCount : Int) - (cursor : Int))).toNat
      { title := program.title, subtitle := program.subtitle,
        tag := program.tag, url := program.url,
        durationSec := some (max 1 span * slotMinutes * 60),
        start := cursor, span := span, stop := cursor + span - 1 }
        :: buildScheduleGo programs slotCount slotMinutes fuel (cursor + span)
          (programIndex + 1)
    else []

/-- From index-builder-config.ts `buildSchedule`. -/
def buildSchedule (programs : List ManifestProgram) (slotCount slotMinutes : Nat) :
    List ProgramSlot :=
  if programs.isEmpty then offAirLoop slotMinutes slotCount slotCount 0
  else buildScheduleGo programs slotCount slotMinutes slotCount 0 0

/-- Specification predicate: the slot list exactly tiles `[cursor, slotCount)`
left to right — each slot starts at the cursor, spans at least one slot,
ends at `start + span - 1`, stays inside the range, and the rest tiles the
remainder. -/
def tilesFrom (slotCount : Nat) : Nat → List ProgramSlot → Prop
  | cursor, [] => cursor = slotCount
  | cursor, s :: rest =>
    s.start = cursor ∧ 1 ≤ s.span ∧ s.stop = cursor + s.span - 1 ∧
      cursor + s.span ≤ slotCount ∧ tilesFrom slotCount (cursor + s.span) rest

/-- From guide types: the media classification of `getMediaKind`. -/
inductive MediaKind where
  | image | video | audio | iframe
  deriving DecidableEq, Repr

/-- ASCII lowering; JS `toLowerCase` restricted to the ASCII range, which is
all `getMediaKind` needs for extension matching. -/
def asciiLower (c : Char) : Char :=
  if 'A' ≤ c ∧ c ≤ 'Z' then Char.ofNat (c.toNat + 32) else c

/-- From media.ts `getMediaKind`: strip query/hash, lowercase, classify by
extension; iframe is the default. The `/\.(...)$/` regexes become
suffix tests. -/
def getMediaKind (url : String) : MediaKind :=
  let cleaned := (((jsSplitChar '?' url.toList).getD 0 []).takeWhile
    (fun c => c ≠ '#')).map asciiLower
  let endsIn (exts : List String) : Bool :=
    exts.any fun ext => ext.toList.isSuffixOf cleaned
  if endsIn [".png", ".jpg", ".jpeg", ".gif", ".webp", ".avif"] then .image
  else if endsIn [".mp4", ".webm", ".ogg", ".m4v", ".mov"] then .video
  else if endsIn [".mp3", ".wav", ".aac", ".m4a", ".flac", ".oga"] then .audio
  else .iframe

/-- From App.tsx: `const PRELOAD_MODE: "none" | "image" | "all"`. -/
inductive PreloadMode where
  | off | image | all
  deriving DecidableEq, Repr

/-- From the preload manager `shouldPreload`: mode "all" preloads everything,
mode "image" only images, mode "none" nothing. -/
def shouldPreload (mode : PreloadMode) (kind : MediaKind) : Bool :=
  match mode with
  | .all => true
  | .image => kind = MediaKind.image
  | .off => false

/-- From guide types: `PreloadEntry.status`. -/
inductive PreloadStatus where
  | loading | ready | error
  deriving DecidableEq, Repr

/-- From guide types `PreloadEntry`; the owned DOM `element` is dropped from
the model (only its removal side effects would use it). -/
structure PreloadEntry where
  url : String
  kind : MediaKind
  status : PreloadStatus
  lastUsed : Int
  deriving DecidableEq, Repr

/-- The comparator `(a, b) => a.lastUsed - b.lastUsed` used by the eviction
sort: ascending by `lastUsed`. -/
def preloadLe (a b : PreloadEntry) : Prop :=
  a.lastUsed ≤ b.lastUsed

instance : DecidableRel preloadLe := fun a b => Int.decLe a.lastUsed b.lastUsed

instance : IsTotal PreloadEntry preloadLe :=
  ⟨fun a b => le_total a.lastUsed b.lastUsed⟩

instance : IsTrans PreloadEntry preloadLe := ⟨fun _ _ _ => le_trans⟩

/-- From the preload manager `prunePreloadCache`: delete entries past the TTL,
then, when still over the capacity `limit`, delete the oldest-`lastUsed`
entries down to capacity. JS `Array.prototype.sort` is a stable sort and a
stable sort by a total preorder is unique, so it is modeled by
`insertionSort`. The cache `Map` is modeled as an insertion-ordered list with
unique URLs; the TTL and capacity constants come in as parameters
(`PRELOAD_CACHE_TTL_MS` and `PRELOAD_CACHE_LIMIT` in the source). -/
def prunePreloadCache (nowTs ttl : Int) (limit : Nat)
    (cache : List PreloadEntry) : List PreloadEntry :=
  let kept := cache.filter fun e => ¬(nowTs - e.lastUsed > ttl)
  if kept.length ≤ limit then kept
  else
    let sorted := List.insertionSort preloadLe kept
    let overflow := kept.length - limit
    let removed := sorted.take overflow
    kept.filter fun e => ¬(removed.any fun r => r.url = e.url)

/-- From the preload manager `queuePreload`, restricted to its cache effect:
empty URLs and non-preloadable kinds are ignored, a hit only bumps
`lastUsed`, a miss appends a `loading` entry and runs an eviction pass. -/
def queuePreload (mode : PreloadMode) (ttl : Int) (limit : Nat)
    (nowTs : Int) (url : String) (cache : List PreloadEntry) :
    List PreloadEntry :=
  if url = "" then cache
  else
    let kind := getMediaKind url
    if ¬shouldPreload mode kind then cache
    else if cache.any (fun e => e.url = url) then
      cache.map fun e => if e.url = url then { e with lastUsed := nowTs } else e
    else
      let entry : PreloadEntry :=
        { url := url, kind := kind, status := .loading, lastUsed := nowTs }
      prunePreloadCache nowTs ttl limit (cache ++ [entry])

/-- A sequence of `queuePreload` calls, each with its own timestamp and URL,
starting from a given cache state. -/
def runPreloadCalls (mode : PreloadMode) (ttl : Int) (limit : Nat)
    (calls : List (Int × String)) (cache : List PreloadEntry) :
    List PreloadEntry :=
  calls.foldl (fun acc call => queuePreload mode ttl limit call.1 call.2 acc)
    cache

/-- From the preview attach effect in the preload manager (mode "all"): the
entry attached as the live preview is the cache entry for the selected
program URL when that entry is `ready` and not audio; otherwise nothing is
attached. -/
def attachedPreviewUrl (selectedProgramUrl : Option String)
    (cache : List PreloadEntry) : Option String :=
  match selectedProgramUrl with
  | none => none
  | some u =>
    match cache.find? fun e => e.url = u with
    | some e =>
      if e.status = PreloadStatus.ready ∧ e.kind ≠ MediaKind.audio then some u
      else none
    | none => none

/-- The protocol messages the modeled handlers emit (`dial`, `tune`, `now`).
`nowPlaying` models the `{type: "now", ...}` broadcast. -/
inductive RemoteMsg where
  | dial (value : String) (committed : Bool)
  | tune (number : String)
  | nowPlaying (channelId number : String) (title url : Option String)
  deriving DecidableEq, Repr

/-- The remote-side dial session state: `dialBuffer`, whether a commit timer
is pending, and the `remoteGodmodeOpen` flag `commitDial` drives. -/
structure DialState where
  buffer : String
  timerArmed : Bool
  godmodeOpen : Bool
  deriving DecidableEq, Repr

/-- The initial dial session: empty buffer, no timer, god mode closed. -/
def initialDialState : DialState :=
  { buffer := "", timerArmed := false, godmodeOpen := false }

/-- From App.tsx `commitDial`: empty values are ignored; otherwise the
god-mode flag is set exactly when the value parses to 67, a committed `dial`
and a `tune` are sent (both carrying the raw buffer string), and the buffer
is cleared. -/
def commitDial (s : DialState) (value : String) : DialState × List RemoteMsg :=
  if value = "" then (s, [])
  else
    let god := normalizeChannelNumber value = some 67
    ({ s with buffer := "", godmodeOpen := god },
      [.dial value true, .tune value])

/-- Model of JS `str.slice(-3)`: the last three characters (the whole string
when shorter). -/
def jsSliceLast3 (s : String) : String :=
  String.mk (s.toList.drop (s.toList.length - 3))

/-- The dial-buffer effect in App.tsx, run whenever `dialBuffer` changes in
remote mode: an empty buffer does nothing; otherwise the pending commit timer
is cleared, an uncommitted `dial` with the live buffer is sent, and either
the buffer has reached 3 digits and commits immediately, or the ~700ms commit
timer is re-armed. -/
def dialBufferEffect (s : DialState) : DialState × List RemoteMsg :=
  if s.buffer = "" then (s, [])
  else if s.buffer.length ≥ 3 then
    ((commitDial { s with timerArmed := false } s.buffer).1,
      .dial s.buffer false :: (commitDial { s with timerArmed := false } s.buffer).2)
  else ({ s with timerArmed := true }, [.dial s.buffer false])

/-- From App.tsx `pushDialDigit` plus the React re-render it triggers: the
buffer becomes the last three characters of the old buffer with the digit
appended; when that leaves the buffer unchanged React bails out and the
effect does not re-run, otherwise the dial-buffer effect runs. -/
def pushDialDigit (s : DialState) (digit : Nat) : DialState × List RemoteMsg :=
  if jsSliceLast3 (s.buffer ++ toString digit) = s.buffer then (s, [])
  else dialBufferEffect
    { s with buffer := jsSliceLast3 (s.buffer ++ toString digit) }

/-- Expiry of the ~700ms commit timer: fires only while armed, and commits
the buffer it captured (unchanged since arming, because any buffer change
clears and re-arms the timer first). -/
def dialTimerFire (s : DialState) : DialState × List RemoteMsg :=
  if s.timerArmed then commitDial { s with timerArmed := false } s.buffer
  else (s, [])

/-- Dial-session events: a digit press or the commit-timer expiry. -/
inductive DialEvent where
  | push (digit : Nat)
  | timer
  deriving DecidableEq, Repr

/-- Run a sequence of dial events, collecting all emitted messages. -/
def runDial (events : List DialEvent) (s : DialState) :
    DialState × List RemoteMsg :=
  events.foldl
    (fun acc ev =>
      let step :=
        match ev with
        | .push d => pushDialDigit acc.1 d
        | .timer => dialTimerFire acc.1
      (step.1, acc.2 ++ step.2))
    (s, [])

/-- Recognizer for committed `dial` messages. -/
def isCommittedDial : RemoteMsg → Bool
  | .dial _ true => true
  | _ => false

/-- Recognizer for `tune` messages. -/
def isTuneMsg : RemoteMsg → Bool
  | .tune _ => true
  | _ => false

/-- The display selection state named by the error-handling contract:
`selectedRow`, `selectedCol`, `playerOpen`, `playerUrl`. -/
structure SelectionState where
  selectedRow : Nat
  selectedCol : Nat
  playerOpen : Bool
  playerUrl : Option String
  deriving DecidableEq, Repr

/-- JS truthiness of an optional string: present and non-empty. -/
def jsTruthyStr : Option String → Bool
  | some s => s ≠ ""
  | none => false

/-- From App.tsx `getProgramForChannel`: the schedule slot covering the
current slot index, falling back to `schedule[0]` (`undefined` when the
schedule is empty). -/
def getProgramForChannel (currentSlotIndex : Int) :
    Option GuideChannel → Option ProgramSlot
  | none => none
  | some channel =>
    match channel.schedule.find?
      (fun slot => currentSlotIndex ≥ slot.start ∧ currentSlotIndex ≤ slot.stop) with
    | some slot => some slot
    | none => channel.schedule.head?

/-- From App.tsx `openProgram`, restricted to the selection state and the
broadcast: a program without a URL is ignored; otherwise the player opens on
the program URL and a `now` message is broadcast. -/
def openProgram (st : SelectionState) (program : ProgramSlot)
    (channel : GuideChannel) : SelectionState × List RemoteMsg :=
  if ¬jsTruthyStr program.url then (st, [])
  else
    ({ st with playerOpen := true, playerUrl := program.url },
      [.nowPlaying channel.id channel.number (some program.title) program.url])

/-- The body of App.tsx `handleTuneToNumber` after parsing, as a function of
the parsed channel number: god-mode and debug numbers route to the
pseudo-channels; otherwise the target is looked up among all channels
(hidden ones included), a miss returns unchanged with no broadcast, and a hit
selects the visible row (when visible) and opens or stands by. -/
def resolveTune (allChannels channels : List GuideChannel)
    (currentSlotIndex : Int) (st : SelectionState) :
    Option Int → SelectionState × List RemoteMsg
  | none => (st, [])
  | some targetNumber =>
    if some targetNumber = normalizeChannelNumber GODMODE_CHANNEL_NUMBER then
      ({ st with playerOpen := false },
        [.nowPlaying GODMODE_CHANNEL_ID GODMODE_CHANNEL_NUMBER none none])
    else if some targetNumber = normalizeChannelNumber DEBUG_CHANNEL_NUMBER then
      ({ st with playerOpen := false },
        [.nowPlaying DEBUG_CHANNEL_ID DEBUG_CHANNEL_NUMBER
          (some "Diagnostics") none])
    else
      match allChannels.find?
        (fun channel => normalizeChannelNumber channel.number = some targetNumber) with
      | none => (st, [])
      | some targetChannel =>
        let st1 :=
          match channels.findIdx? (fun channel => channel.id = targetChannel.id) with
          | some visibleIndex =>
            { st with
                selectedRow := visibleIndex
                selectedCol := currentSlotIndex.toNat }
          | none => st
        let program := getProgramForChannel currentSlotIndex (some targetChannel)
        match program with
        | some p =>
          if jsTruthyStr p.url then openProgram st1 p targetChannel
          else
            ({ st1 with playerOpen := false },
              [.nowPlaying targetChannel.id targetChannel.number
                (some p.title) p.url])
        | none =>
          ({ st1 with playerOpen := false },
            [.nowPlaying targetChannel.id targetChannel.number none none])

/-- From App.tsx `handleTuneToNumber`: parse the dialed value, then resolve.
`allChannels` is the full index channel list, `channels` the visible
(non-hidden) list the UI rows show. -/
def handleTuneToNumber (allChannels channels : List GuideChannel)
    (currentSlotIndex : Int) (st : SelectionState) (value : String) :
    SelectionState × List RemoteMsg :=
  resolveTune allChannels channels currentSlotIndex st
    (normalizeChannelNumber value)

/-- Direction argument of `handleChannelChange`. -/
inductive ChannelDir where
  | up | down
  deriving DecidableEq, Repr

/-- From App.tsx `handleChannelChange`, restricted to row selection: an empty
list is a no-op; otherwise the next row is
`(activeRow + delta + channels.length) % channels.length` with delta -1 for
"up" and +1 for "down" (JS `%` is truncating `Int.tmod`), and the channel at
that row is selected. -/
def handleChannelChange (channels : List GuideChannel) (activeRow : Int)
    (dir : ChannelDir) : Option (Nat × GuideChannel) :=
  if channels.length = 0 then none
  else
    let delta : Int := match dir with | .up => -1 | .down => 1
    let nextRow := (Int.tmod (activeRow + delta + channels.length)
      (channels.length : Int)).toNat
    (channels.get? nextRow).map fun channel => (nextRow, channel)

/-- The visible channel list from App.tsx:
`allChannels.filter((channel) => !isHiddenChannel(channel))`. -/
def visibleChannels (allChannels : List GuideChannel) : List GuideChannel :=
  allChannels.filter fun channel => ¬isHiddenChannel channel

/-- The shape of a parsed server-side message as far as the WebSocket handler
in apps/server/src/index.ts inspects it: a `type` tag, an `appId`, and a
`controls` array (abstracted to opaque strings). `JSON.parse` itself is a JS
built-in, so its outcome enters the model as `Option ServerParsedMessage`
(`none` is a parse failure). -/
structure ServerParsedMessage where
  type : Option String := none
  appId : Option String := none
  controls : Option (List String) := none
  deriving DecidableEq, Repr

/-- JS `Map.prototype.set` on an association list keyed by strings. -/
def jsMapSet (key : String) (value : List String)
    (m : List (String × List String)) : List (String × List String) :=
  if m.any (fun kv => kv.1 = key) then
    m.map fun kv => if kv.1 = key then (key, value) else kv
  else m ++ [(key, value)]

/-- From the `socket.on('message', ...)` handler in apps/server/src/index.ts:
a successfully parsed `controls` message with a truthy `appId` and an array
`controls` updates the schema map (parse failures are swallowed by the
`catch`), and then — unconditionally — the raw message text is sent verbatim
to every connected client whose socket is open. Returns the new schema map
and the list of per-open-client deliveries. -/
def serverHandleMessage (schemas : List (String × List String))
    (parseResult : Option ServerParsedMessage) (rawMessage : String)
    (clientsOpen : List Bool) :
    List (String × List String) × List String :=
  let schemas1 :=
    match parseResult with
    | some parsed =>
      match parsed.type, parsed.appId, parsed.controls with
      | some "controls", some appId, some controls =>
        if appId ≠ "" then jsMapSet appId controls schemas else schemas
      | _, _, _ => schemas
    | none => schemas
  (schemas1, (clientsOpen.filter id).map fun _ => rawMessage)

/-- From the `message` listener in useRemoteSocket.ts: the handler is invoked
on the parsed message only when `JSON.parse` succeeds; a parse failure is
caught and only logged. Returns the list of handler invocations. -/
def clientDeliverMessage (parseResult : Option RemoteMsg) : List RemoteMsg :=
  match parseResult with
  | some msg => [msg]
  | none => []

/-- Helper: entries counted by a predicate and by its negation partition the
list. -/
theorem countP_not_add {α : Type} (p : α → Bool) (l : List α) :
    (l.countP fun a => ¬(p a = true)) + l.countP p = l.length := by
  induction l with
  | nil => rfl
  | cons a t ih =>
    by_cases h : p a = true <;> simp [List.countP_cons, h] at ih ⊢ <;> omega

/-- Helper: each entry of the take-prefix satisfies the removal predicate of
the eviction filter. -/
theorem countP_take_self (removed : List PreloadEntry) :
    removed.countP (fun e => removed.any fun r => r.url = e.url) =
      removed.length := by
  refine List.countP_eq_length.mpr fun r hr => ?_
  exact List.any_eq_true.mpr ⟨r, hr, by simp⟩

/-- Helper: one eviction pass never returns more than the capacity. -/
theorem prune_length_le (nowTs ttl : Int) (limit : Nat)
    (cache : List PreloadEntry) :
    (prunePreloadCache nowTs ttl limit cache).length ≤ limit := by
  by_cases hlen :
    (cache.filter fun e => ¬(nowTs - e.lastUsed > ttl)).length ≤ limit
  · simp only [prunePreloadCache]
    rw [if_pos hlen]
    exact hlen
  · simp only [prunePreloadCache]
    rw [if_neg hlen]
    set kept := cache.filter fun e => ¬(nowTs - e.lastUsed > ttl) with hkept
    set sorted := List.insertionSort preloadLe kept with hsorted
    set overflow := kept.length - limit with hoverflow
    set removed := sorted.take overflow with hremoved
    have hperm : sorted.Perm kept := List.perm_insertionSort preloadLe kept
    have hslen : sorted.length = kept.length := hperm.length_eq
    have hrlen : removed.length = overflow := by
      rw [hremoved, List.length_take]
      omega
    have hcount : overflow ≤
        kept.countP fun e => removed.any fun r => r.url = e.url := by
      have h1 : kept.countP (fun e => removed.any fun r => r.url = e.url) =
          sorted.countP fun e => removed.any fun r => r.url = e.url :=
        (hperm.countP_eq _).symm
      have h2 : sorted = removed ++ sorted.drop overflow := by
        rw [hremoved, List.take_append_drop]
      rw [h1, h2, List.countP_append, countP_take_self]
      omega
    have h3 := countP_not_add
      (fun e => removed.any fun r => r.url = e.url) kept
    have h4 : (kept.filter fun e =>
        ¬((removed.any fun r => r.url = e.url) = true)).length =
        kept.countP fun e => ¬((removed.any fun r => r.url = e.url) = true) :=
      (List.countP_eq_length_filter _ _).symm
    calc (kept.filter fun e =>
          ¬((removed.any fun r => r.url = e.url) = true)).length
        = kept.countP fun e =>
            ¬((removed.any fun r => r.url = e.url) = true) := h4
      _ ≤ limit := by omega

/-- Helper: the over-capacity branch of an eviction pass removes exactly the
overflow-many oldest entries — the survivors number exactly `limit` and every
removed entry is at most as recent as every survivor. Stated over the
TTL-surviving list `kept` with unique URLs. -/
theorem prune_over_core (kept : List PreloadEntry) (limit : Nat)
    (hnodup : (kept.map PreloadEntry.url).Nodup)
    (hover : limit < kept.length) :
    ((kept.filter fun e =>
      ¬(((List.insertionSort preloadLe kept).take (kept.length - limit)).any
        fun r => r.url = e.url)).length = limit) ∧
    (∀ r ∈ kept,
      r ∉ kept.filter (fun e =>
        ¬(((List.insertionSort preloadLe kept).take (kept.length - limit)).any
          fun x => x.url = e.url)) →
      ∀ k ∈ kept.filter (fun e =>
        ¬(((List.insertionSort preloadLe kept).take (kept.length - limit)).any
          fun x => x.url = e.url)),
        r.lastUsed ≤ k.lastUsed) := by
  set sorted := List.insertionSort preloadLe kept with hsorted
  set overflow := kept.length - limit with hoverflow
  set removed := sorted.take overflow with hremoved
  have hperm : sorted.Perm kept := List.perm_insertionSort preloadLe kept
  have hslen : sorted.length = kept.length := hperm.length_eq
  have hrlen : removed.length = overflow := by
    rw [hremoved, List.length_take]
    omega
  have hsplit : sorted = removed ++ sorted.drop overflow := by
    rw [hremoved, List.take_append_drop]
  have hnodups : (sorted.map PreloadEntry.url).Nodup :=
    ((hperm.map PreloadEntry.url).nodup_iff).mpr hnodup
  have hdisj : ∀ d ∈ sorted.drop overflow, ∀ x ∈ removed, x.url ≠ d.url := by
    intro d hd x hx heq
    have h1 : (removed.map PreloadEntry.url ++
        (sorted.drop overflow).map PreloadEntry.url).Nodup := by
      rw [← List.map_append, ← hsplit]
      exact hnodups
    exact (List.nodup_append.mp h1).2.2 (List.mem_map_of_mem _ hx)
      (heq ▸ List.mem_map_of_mem _ hd)
  have hcountdrop : (sorted.drop overflow).countP
      (fun e => removed.any fun r => r.url = e.url) = 0 := by
    rw [List.countP_eq_zero]
    intro d hd hany
    obtain ⟨x, hx, hxeq⟩ := List.any_eq_true.mp hany
    exact hdisj d hd x hx (of_decide_eq_true hxeq)
  have hcount : kept.countP (fun e => removed.any fun r => r.url = e.url) =
      overflow := by
    have h1 : kept.countP (fun e => removed.any fun r => r.url = e.url) =
        sorted.countP (fun e => removed.any fun r => r.url = e.url) :=
      (hperm.countP_eq _).symm
    rw [h1, hsplit, List.countP_append, countP_take_self, hcountdrop]
    have hX : sorted = removed ++ sorted.drop overflow := hsplit
    omega
  have hmem_removed : ∀ x ∈ removed, x ∈ kept := fun x hx =>
    hperm.mem_iff.mp ((List.take_sublist _ _).subset hx)
  have hinj := List.inj_on_of_nodup_map hnodup
  have h3 := countP_not_add
    (fun e => removed.any fun r => r.url = e.url) kept
  have h4 : (kept.filter fun e =>
      ¬((removed.any fun r => r.url = e.url) = true)).length =
      kept.countP fun e => ¬((removed.any fun r => r.url = e.url) = true) :=
    (List.countP_eq_length_filter _ _).symm
  constructor
  · rw [h4]
    omega
  · intro r hrk hrnot k hk
    have hk2 := List.mem_filter.mp hk
    have hkany : ¬((removed.any fun x => x.url = k.url) = true) := by
      simpa using hk2.2
    have hrany : (removed.any fun x => x.url = r.url) = true := by
      by_contra hcon
      exact hrnot (List.mem_filter.mpr ⟨hrk, by simpa using hcon⟩)
    obtain ⟨x, hx, hxeq⟩ := List.any_eq_true.mp hrany
    have hxr : x = r := hinj (hmem_removed x hx) hrk (of_decide_eq_true hxeq)
    have hr_removed : r ∈ removed := hxr ▸ hx
    have hks : k ∈ sorted := hperm.mem_iff.mpr hk2.1
    have hkdrop : k ∈ sorted.drop overflow := by
      rcases List.mem_append.mp (hsplit ▸ hks) with hkr | hkd
      · exact absurd (List.any_eq_true.mpr ⟨k, hkr, by simp⟩) hkany
      · exact hkd
    have hsortedPW : List.Sorted preloadLe sorted := by
      rw [hsorted]
      exact List.sorted_insertionSort preloadLe kept
    have hpair := List.pairwise_append.mp (hsplit ▸ hsortedPW)
    exact hpair.2.2 r hr_removed k hkdrop

/-- Helper: one `queuePreload` call preserves the capacity bound. -/
theorem queuePreload_length_le (mode : PreloadMode) (ttl : Int) (limit : Nat)
    (nowTs : Int) (url : String) (cache : List PreloadEntry)
    (h : cache.length ≤ limit) :
    (queuePreload mode ttl limit nowTs url cache).length ≤ limit := by
  simp only [queuePreload]
  split
  · exact h
  · split
    · exact h
    · split
      · simpa using h
      · exact prune_length_le _ _ _ _

/-- Helper: any sequence of `queuePreload` calls preserves the capacity
bound. -/
theorem runPreloadCalls_length_le (mode : PreloadMode) (ttl : Int)
    (limit : Nat) :
    ∀ (calls : List (Int × String)) (cache : List PreloadEntry),
      cache.length ≤ limit →
      (runPreloadCalls mode ttl limit calls cache).length ≤ limit := by
  intro calls
  induction calls with
  | nil =>
    intro cache h
    simpa [runPreloadCalls] using h
  | cons c t ih =>
    intro cache h
    simp only [runPreloadCalls, List.foldl_cons] at ih ⊢
    exact ih _ (queuePreload_length_le mode ttl limit c.1 c.2 cache h)

/-- C4: the preload cache is capacity- and TTL-bounded. Starting from the
empty cache, after any sequence of `queuePreload` calls the cache holds at
most `limit` entries; after an eviction pass every surviving entry is within
the TTL; and when the TTL survivors still exceed capacity, the pass keeps
exactly `limit` entries and every evicted survivor is at most as
recently used as every kept entry (oldest-`lastUsed` evicted first). -/
theorem preload_cache_eviction_spec (mode : PreloadMode) (ttl : Int)
    (limit : Nat) :
    (∀ calls : List (Int × String),
      (runPreloadCalls mode ttl limit calls []).length ≤ limit) ∧
    (∀ (nowTs : Int) (cache : List PreloadEntry) (e : PreloadEntry),
      e ∈ prunePreloadCache nowTs ttl limit cache →
      nowTs - e.lastUsed ≤ ttl) ∧
    (∀ (nowTs : Int) (cache : List PreloadEntry),
      (cache.map PreloadEntry.url).Nodup →
      limit < (cache.filter fun e => ¬(nowTs - e.lastUsed > ttl)).length →
      (prunePreloadCache nowTs ttl limit cache).length = limit ∧
      ∀ r ∈ cache.filter (fun e => ¬(nowTs - e.lastUsed > ttl)),
        r ∉ prunePreloadCache nowTs ttl limit cache →
        ∀ k ∈ prunePreloadCache nowTs ttl limit cache,
          r.lastUsed ≤ k.lastUsed) := by
  refine ⟨fun calls =>
    runPreloadCalls_length_le mode ttl limit calls [] (by simp),
    fun nowTs cache e he => ?_, fun nowTs cache hnodup hover => ?_⟩
  · have hkept : e ∈ cache.filter fun x => ¬(nowTs - x.lastUsed > ttl) := by
      simp only [prunePreloadCache] at he
      split at he
      · exact he
      · exact List.mem_of_mem_filter he
    have h2 := (List.mem_filter.mp hkept).2
    simp only [decide_eq_true_eq] at h2
    omega
  · have hknodup : ((cache.filter fun e =>
        ¬(nowTs - e.lastUsed > ttl)).map PreloadEntry.url).Nodup :=
      List.Nodup.sublist
        ((List.filter_sublist cache).map PreloadEntry.url) hnodup
    have hcore := prune_over_core
      (cache.filter fun e => ¬(nowTs - e.lastUsed > ttl)) limit hknodup hover
    have hresult : prunePreloadCache nowTs ttl limit cache =
        (cache.filter fun e => ¬(nowTs - e.lastUsed > ttl)).filter (fun e =>
          ¬(((List.insertionSort preloadLe (cache.filter fun x =>
              ¬(nowTs - x.lastUsed > ttl))).take
            ((cache.filter fun x =>
              ¬(nowTs - x.lastUsed > ttl)).length - limit)).any
            fun r => r.url = e.url)) := by
      simp only [prunePreloadCache]
      rw [if_neg (by omega)]
    rw [hresult]
    exact hcore

/-- Witness for C4: three distinct image preloads against capacity 2 leave at
most 2 entries; a four-entry cache with one expired entry and capacity 2
prunes to exactly 2; and a surviving entry is within the TTL. -/
theorem preload_cache_eviction_spec_witness :
    (runPreloadCalls PreloadMode.all 60000 2
      [(0, "a.png"), (1, "b.png"), (2, "c.png")] []).length ≤ 2 ∧
    (prunePreloadCache 100 50 2
      [{ url := "a", kind := .image, status := .ready, lastUsed := 90 },
       { url := "b", kind := .image, status := .ready, lastUsed := 80 },
       { url := "c", kind := .image, status := .loading, lastUsed := 60 },
       { url := "d", kind := .image, status := .ready, lastUsed := 0 }]).length
      = 2 ∧
    (100 : Int) - 90 ≤ 50 :=
  ⟨(preload_cache_eviction_spec PreloadMode.all 60000 2).1
      [(0, "a.png"), (1, "b.png"), (2, "c.png")],
    ((preload_cache_eviction_spec PreloadMode.all 50 2).2.2 100
      [{ url := "a", kind := .image, status := .ready, lastUsed := 90 },
       { url := "b", kind := .image, status := .ready, lastUsed := 80 },
       { url := "c", kind := .image, status := .loading, lastUsed := 60 },
       { url := "d", kind := .image, status := .ready, lastUsed := 0 }]
      (by decide) (by decide)).1,
    (preload_cache_eviction_spec PreloadMode.all 50 2).2.1 100
      [{ url := "a", kind := .image, status := .ready, lastUsed := 90 },
       { url := "b", kind := .image, status := .ready, lastUsed := 80 },
       { url := "c", kind := .image, status := .loading, lastUsed := 60 },
       { url := "d", kind := .image, status := .ready, lastUsed := 0 }]
      { url := "a", kind := .image, status := .ready, lastUsed := 90 }
      (by decide)⟩

/-- C3 counterexample: with `slotCount = 6` and a single program of
`duration_slots = 2`, `buildSchedule` does NOT produce the claimed
`[(0,1),(2,2),(3,3),(4,4),(5,5)]` layout of one program plus width-1
off-air filler. -/
theorem buildSchedule_single_program_not_filler :
    ((buildSchedule [{ title := "p", duration_slots := some 2 }] 6 30).map
      fun s => (s.start, s.stop)) ≠
      [(0, 1), (2, 2), (3, 3), (4, 4), (5, 5)] := by
  decide

/-- C3 amended: with `slotCount = 6` and a single program of
`duration_slots = 2`, `buildSchedule` treats the program list as a cyclic
playlist, so the one program repeats and occupies slots 0-1, 2-3 and 4-5;
off-air filler appears only when the program list is empty. -/
theorem buildSchedule_single_program_cycles :
    ((buildSchedule [{ title := "p", duration_slots := some 2 }] 6 30).map
      fun s => (s.start, s.stop)) = [(0, 1), (2, 3), (4, 5)] ∧
    ((buildSchedule [] 6 30).map fun s => (s.start, s.stop)) =
      [(0, 0), (1, 1), (2, 2), (3, 3), (4, 4), (5, 5)] := by
  decide

/-- C5 counterexample: a concrete cache whose single `ready` image entry is
the currently attached live preview, yet one eviction pass at a time past
the TTL removes it — `prunePreloadCache` has no attachment exemption. -/
theorem prune_evicts_attached_preview :
    attachedPreviewUrl (some "a.png")
        [{ url := "a.png", kind := .image, status := .ready, lastUsed := 0 }] =
      some "a.png" ∧
    prunePreloadCache 60001 60000 2
        [{ url := "a.png", kind := .image, status := .ready, lastUsed := 0 }] =
      [] := by
  decide

/-- C5 amended: an eviction pass treats every entry alike — any entry whose
`lastUsed` lies further than the TTL in the past is removed, including the
entry currently attached as the live preview or active player source; the
only protection an attached entry has is that cache hits refresh its
`lastUsed`. -/
theorem prune_removes_ttl_expired (nowTs ttl : Int) (limit : Nat)
    (cache : List PreloadEntry) (e : PreloadEntry)
    (hexp : nowTs - e.lastUsed > ttl) :
    e ∉ prunePreloadCache nowTs ttl limit cache := by
  intro hin
  have hkept : e ∈ cache.filter fun x => ¬(nowTs - x.lastUsed > ttl) := by
    simp only [prunePreloadCache] at hin
    split at hin
    · exact hin
    · exact List.mem_of_mem_filter hin
  have := (List.mem_filter.mp hkept).2
  simp only [decide_eq_true_eq] at this
  exact this hexp

/-- Witness for the C5 amended theorem at a concrete expired entry. -/
theorem prune_removes_ttl_expired_witness :
    ({ url := "a.png", kind := .image, status := .ready, lastUsed := 0 } :
        PreloadEntry) ∉
      prunePreloadCache 60001 60000 2
        [{ url := "a.png", kind := .image, status := .ready, lastUsed := 0 }] :=
  prune_removes_ttl_expired 60001 60000 2 _ _ (by decide)

/-- C8 counterexample: an unparsable message (`JSON.parse` fails, modeled by
the `none` parse result) reaching the server with two open clients is still
relayed verbatim to both — the claim that malformed messages are not relayed
by the WebSocket server is false. -/
theorem server_relays_malformed :
    (serverHandleMessage [] none "not json" [true, true]).2 =
        ["not json", "not json"] ∧
      (serverHandleMessage [] none "not json" [true, true]).2 ≠ [] := by
  decide

/-- C8 amended: a malformed protocol message is silently dropped by each
receiver — a parse failure invokes no handler on the guide client and leaves
the server's control-schema state unchanged, as does any parsed message whose
type is not "controls" — but the WebSocket server always relays the raw
message text verbatim to every open client, malformed or not. -/
theorem malformed_message_handling (schemas : List (String × List String))
    (parseResult : Option ServerParsedMessage) (raw : String)
    (clientsOpen : List Bool) :
    (parseResult = none →
      (serverHandleMessage schemas parseResult raw clientsOpen).1 = schemas) ∧
    (∀ p, parseResult = some p → p.type ≠ some "controls" →
      (serverHandleMessage schemas parseResult raw clientsOpen).1 = schemas) ∧
    ((serverHandleMessage schemas parseResult raw clientsOpen).2 =
      (clientsOpen.filter id).map fun _ => raw) ∧
    clientDeliverMessage none = [] := by
  refine ⟨fun hp => ?_, fun p hp ht => ?_, rfl, rfl⟩
  · simp [serverHandleMessage, hp]
  · simp only [serverHandleMessage, hp]
    rcases htype : p.type with _ | t
    · simp [htype]
    · rcases hap : p.appId with _ | a <;> rcases hc : p.controls with _ | c <;>
        simp_all [serverHandleMessage]

/-- Witness for the C8 amended theorem at a concrete malformed message. -/
theorem malformed_message_handling_witness :
    (serverHandleMessage [("app", ["x"])] none "oops" [true, false]).1 =
        [("app", ["x"])] ∧
      (serverHandleMessage [("app", ["x"])] none "oops" [true, false]).2 =
        ["oops"] := by
  have h := malformed_message_handling [("app", ["x"])] none "oops" [true, false]
  exact ⟨h.1 rfl, by decide⟩

/-- C9: a tune whose value does not parse, or whose parsed number is neither
a pseudo-channel number nor the number of any channel, is a no-op: the
selection state (selectedRow, selectedCol, playerOpen, playerUrl) is
returned unchanged and nothing is broadcast. -/
theorem tune_miss_is_noop (allChannels channels : List GuideChannel)
    (currentSlotIndex : Int) (st : SelectionState) (value : String) :
    (normalizeChannelNumber value = none →
      handleTuneToNumber allChannels channels currentSlotIndex st value =
        (st, [])) ∧
    (∀ n, normalizeChannelNumber value = some n →
      some n ≠ normalizeChannelNumber GODMODE_CHANNEL_NUMBER →
      some n ≠ normalizeChannelNumber DEBUG_CHANNEL_NUMBER →
      allChannels.find?
        (fun channel => normalizeChannelNumber channel.number = some n) = none →
      handleTuneToNumber allChannels channels currentSlotIndex st value =
        (st, [])) := by
  constructor
  · intro hp
    simp [handleTuneToNumber, hp, resolveTune]
  · intro n hp hg hd hfind
    simp [handleTuneToNumber, hp, resolveTune, hg, hd, hfind]

/-- Witness for C9: tuning to "999" over a one-channel lineup changes nothing
and broadcasts nothing. -/
theorem tune_miss_is_noop_witness :
    handleTuneToNumber [{ id := "c1", number := "042" }] [] 0
        { selectedRow := 0, selectedCol := 0, playerOpen := true,
          playerUrl := some "u" } "999" =
      ({ selectedRow := 0, selectedCol := 0, playerOpen := true,
          playerUrl := some "u" }, []) :=
  (tune_miss_is_noop [{ id := "c1", number := "042" }] [] 0
      { selectedRow := 0, selectedCol := 0, playerOpen := true,
        playerUrl := some "u" } "999").2
    999 (by decide) (by decide) (by decide) (by decide)

/-- C10: tuning is leading-zero-insensitive — two dial values that parse to
the same integer set the remote god-mode flag identically in `commitDial`
and resolve identically in the display's `handleTuneToNumber`; any value
parsing to 67 opens god mode on commit. -/
theorem tuning_leading_zero_insensitive :
    (∀ v1 v2 (s : DialState) (allChannels channels : List GuideChannel)
        (currentSlotIndex : Int) (st : SelectionState),
      normalizeChannelNumber v1 = normalizeChannelNumber v2 →
      v1 ≠ "" → v2 ≠ "" →
      (commitDial s v1).1.godmodeOpen = (commitDial s v2).1.godmodeOpen ∧
        handleTuneToNumber allChannels channels currentSlotIndex st v1 =
          handleTuneToNumber allChannels channels currentSlotIndex st v2) ∧
    (∀ v (s : DialState), v ≠ "" → normalizeChannelNumber v = some 67 →
      (commitDial s v).1.godmodeOpen = true) := by
  constructor
  · intro v1 v2 s allChannels channels currentSlotIndex st h h1 h2
    constructor
    · simp [commitDial, h1, h2, h]
    · simp [handleTuneToNumber, h]
  · intro v s hv h
    simp [commitDial, hv, h]

/-- Witness for C10 at "67" versus "067": same god-mode routing and the same
tune resolution, and "067" opens god mode. -/
theorem tuning_leading_zero_insensitive_witness :
    ((commitDial initialDialState "67").1.godmodeOpen =
        (commitDial initialDialState "067").1.godmodeOpen ∧
      handleTuneToNumber [{ id := "c1", number := "042" }] [] 0
          { selectedRow := 0, selectedCol := 0, playerOpen := false,
            playerUrl := none } "67" =
        handleTuneToNumber [{ id := "c1", number := "042" }] [] 0
          { selectedRow := 0, selectedCol := 0, playerOpen := false,
            playerUrl := none } "067") ∧
    (commitDial initialDialState "067").1.godmodeOpen = true :=
  ⟨tuning_leading_zero_insensitive.1 "67" "067" initialDialState
      [{ id := "c1", number := "042" }] [] 0
      { selectedRow := 0, selectedCol := 0, playerOpen := false,
        playerUrl := none }
      (by decide) (by decide) (by decide),
    tuning_leading_zero_insensitive.2 "067" initialDialState (by decide)
      (by decide)⟩

/-- Helper: whatever `handleChannelChange` selects over the visible list is a
member of the visible list. -/
theorem handleChannelChange_mem {channels : List GuideChannel} {activeRow : Int}
    {dir : ChannelDir} {row : Nat} {channel : GuideChannel}
    (h : handleChannelChange channels activeRow dir = some (row, channel)) :
    channel ∈ channels := by
  unfold handleChannelChange at h
  split at h
  · exact absurd h (by simp)
  · obtain ⟨c, hget, heq⟩ := Option.map_eq_some'.mp h
    injection heq with h1 h2
    subst h2
    exact List.get?_mem hget

/-- C7: channel stepping over the visible (non-hidden) list never lands on a
hidden system channel, and it is cyclic: stepping "down" from the last
visible row selects row 0 and stepping "up" from row 0 selects the last
visible row. -/
theorem channel_step_spec (allChannels : List GuideChannel) :
    (∀ (activeRow : Int) (dir : ChannelDir) (row : Nat)
        (channel : GuideChannel),
      handleChannelChange (visibleChannels allChannels) activeRow dir =
        some (row, channel) →
      isHiddenChannel channel = false) ∧
    (1 ≤ (visibleChannels allChannels).length →
      (handleChannelChange (visibleChannels allChannels)
          ((visibleChannels allChannels).length - 1 : Int)
          ChannelDir.down).map Prod.fst = some 0 ∧
      (handleChannelChange (visibleChannels allChannels) 0
          ChannelDir.up).map Prod.fst =
        some ((visibleChannels allChannels).length - 1)) := by
  constructor
  · intro activeRow dir row channel h
    have hmem := handleChannelChange_mem h
    have := (List.mem_filter.mp hmem).2
    simpa using this
  · intro hlen
    set len := (visibleChannels allChannels).length with hlendef
    have hne : ¬(len = 0) := by omega
    constructor
    · have harith : ((len : Int) - 1) + 1 + (len : Int) = 2 * len := by ring
      have hmod : (Int.tmod (((len : Int) - 1) + 1 + (len : Int)) (len : Int)).toNat
          = 0 := by
        rw [harith, Int.mul_tmod_left]
        rfl
      obtain ⟨c, hc⟩ : ∃ c, (visibleChannels allChannels).get? 0 = some c := by
        rcases hg : (visibleChannels allChannels).get? 0 with _ | c
        · rw [List.get?_eq_none] at hg
          omega
        · exact ⟨c, rfl⟩
      unfold handleChannelChange
      rw [if_neg hne]
      simp only [← hlendef, hmod, hc]
      rfl
    · have harith : (0 : Int) + -1 + (len : Int) = (len : Int) - 1 := by ring
      have hmod : (Int.tmod ((0 : Int) + -1 + (len : Int)) (len : Int)).toNat
          = len - 1 := by
        rw [harith, Int.tmod_eq_of_lt (by omega) (by omega)]
        omega
      obtain ⟨c, hc⟩ : ∃ c, (visibleChannels allChannels).get? (len - 1) = some c := by
        rcases hg : (visibleChannels allChannels).get? (len - 1) with _ | c
        · rw [List.get?_eq_none] at hg
          omega
        · exact ⟨c, rfl⟩
      unfold handleChannelChange
      rw [if_neg hne]
      simp only [← hlendef, hmod, hc]
      rfl

/-- Witness for C7 on a concrete lineup with a hidden god-mode channel row:
stepping down from the last visible row wraps to row 0. -/
theorem channel_step_spec_witness :
    (handleChannelChange
        (visibleChannels
          [{ id := "godmode", number := "067" }, { id := "a", number := "002" },
            { id := "b", number := "003" }])
        ((visibleChannels
          [{ id := "godmode", number := "067" }, { id := "a", number := "002" },
            { id := "b", number := "003" }]).length - 1 : Int)
        ChannelDir.down).map Prod.fst = some 0 :=
  ((channel_step_spec
      [{ id := "godmode", number := "067" }, { id := "a", number := "002" },
        { id := "b", number := "003" }]).2 (by decide)).1

/-- Helper: a pushed digit (0-9) renders as one character. -/
theorem toString_digit_length {d : Nat} (hd : d ≤ 9) :
    (toString d).length = 1 := by
  interval_cases d <;> rfl

/-- Helper: the length of `jsSliceLast3` is the minimum of the input length
and 3. -/
theorem jsSliceLast3_length (s : String) :
    (jsSliceLast3 s).length = min s.length 3 := by
  have h1 : (jsSliceLast3 s).length = (s.toList.drop (s.toList.length - 3)).length :=
    rfl
  have h2 : s.toList.length = s.length := rfl
  rw [h1, List.length_drop, h2]
  omega

/-- Helper: appending a rendered digit to the buffer adds one to its length. -/
theorem buffer_append_digit_length (s : String) {d : Nat} (hd : d ≤ 9) :
    (s ++ toString d).length = s.length + 1 := by
  rw [String.length_append, toString_digit_length hd]

/-- Helper: a push that changes the buffer runs the dial-buffer effect on the
updated state. -/
theorem pushDialDigit_changed (s : DialState) (d : Nat)
    (hsame : ¬(jsSliceLast3 (s.buffer ++ toString d) = s.buffer)) :
    pushDialDigit s d =
      dialBufferEffect
        { s with buffer := jsSliceLast3 (s.buffer ++ toString d) } := by
  unfold pushDialDigit
  exact if_neg hsame

/-- Helper: the dial-buffer effect on a nonempty buffer below three digits
arms the timer and emits one uncommitted dial. -/
theorem dialBufferEffect_short (s : DialState) (h1 : ¬(s.buffer = ""))
    (h2 : ¬(s.buffer.length ≥ 3)) :
    dialBufferEffect s =
      ({ s with timerArmed := true }, [.dial s.buffer false]) := by
  unfold dialBufferEffect
  rw [if_neg h1, if_neg h2]

/-- Helper: the dial-buffer effect on a three-digit buffer emits the
uncommitted dial, the committed dial, and the tune, and clears the buffer. -/
theorem dialBufferEffect_commit (s : DialState) (h1 : ¬(s.buffer = ""))
    (h2 : s.buffer.length ≥ 3) :
    dialBufferEffect s =
      ({ buffer := "", timerArmed := false,
          godmodeOpen := normalizeChannelNumber s.buffer = some 67 },
        [.dial s.buffer false, .dial s.buffer true, .tune s.buffer]) := by
  unfold dialBufferEffect commitDial
  rw [if_neg h1, if_pos h2, if_neg h1]

/-- C6: dial-session behavior. Pushing "6","7" and letting the commit timer
expire emits exactly one committed dial and one tune, both "67", and clears
the buffer; pushing "0","2","6" commits on the third digit with no timer
event; in general a push stores the last three characters of the appended
buffer (or clears it by committing), and from any reachable buffer (length
at most 2) a push first emits an uncommitted dial of the new buffer, then
either re-arms the commit timer (below 3 digits) or commits immediately
(3 digits). -/
theorem dial_commit_spec :
    (runDial [.push 6, .push 7, .timer] initialDialState =
        ({ buffer := "", timerArmed := false, godmodeOpen := true },
          [.dial "6" false, .dial "67" false, .dial "67" true, .tune "67"]) ∧
      (runDial [.push 6, .push 7, .timer] initialDialState).2.filter
          isCommittedDial = [.dial "67" true] ∧
      (runDial [.push 6, .push 7, .timer] initialDialState).2.filter
          isTuneMsg = [.tune "67"]) ∧
    (runDial [.push 0, .push 2, .push 6] initialDialState =
        ({ buffer := "", timerArmed := false, godmodeOpen := false },
          [.dial "0" false, .dial "02" false, .dial "026" false,
            .dial "026" true, .tune "026"]) ∧
      (runDial [.push 0, .push 2, .push 6] initialDialState).2.filter
          isCommittedDial = [.dial "026" true] ∧
      (runDial [.push 0, .push 2, .push 6] initialDialState).2.filter
          isTuneMsg = [.tune "026"]) ∧
    (∀ (s : DialState) (d : Nat),
      (pushDialDigit s d).1.buffer = jsSliceLast3 (s.buffer ++ toString d) ∨
        (pushDialDigit s d).1.buffer = "") ∧
    (∀ (s : DialState) (d : Nat), d ≤ 9 → s.buffer.length ≤ 2 →
      (pushDialDigit s d).2.head? =
        some (.dial (jsSliceLast3 (s.buffer ++ toString d)) false) ∧
      (s.buffer.length < 2 →
        pushDialDigit s d =
          ({ s with
              buffer := jsSliceLast3 (s.buffer ++ toString d)
              timerArmed := true },
            [.dial (jsSliceLast3 (s.buffer ++ toString d)) false])) ∧
      (s.buffer.length = 2 →
        (pushDialDigit s d).1.buffer = "" ∧
        (pushDialDigit s d).2 =
          [.dial (jsSliceLast3 (s.buffer ++ toString d)) false,
            .dial (jsSliceLast3 (s.buffer ++ toString d)) true,
            .tune (jsSliceLast3 (s.buffer ++ toString d))])) := by
  refine ⟨⟨by decide, by decide, by decide⟩, ⟨by decide, by decide, by decide⟩,
    ?_, ?_⟩
  · intro s d
    by_cases hsame : jsSliceLast3 (s.buffer ++ toString d) = s.buffer
    · left
      unfold pushDialDigit
      rw [if_pos hsame]
      exact hsame.symm
    · rw [pushDialDigit_changed s d hsame]
      by_cases hempty : jsSliceLast3 (s.buffer ++ toString d) = ""
      · left
        unfold dialBufferEffect
        rw [if_pos hempty]
      · by_cases hlong : (jsSliceLast3 (s.buffer ++ toString d)).length ≥ 3
        · right
          rw [dialBufferEffect_commit _ hempty hlong]
        · left
          rw [dialBufferEffect_short _ hempty hlong]
  · intro s d hd hlen
    have hnl : (jsSliceLast3 (s.buffer ++ toString d)).length =
        s.buffer.length + 1 := by
      rw [jsSliceLast3_length, buffer_append_digit_length s.buffer hd]
      omega
    have hsame : ¬(jsSliceLast3 (s.buffer ++ toString d) = s.buffer) := by
      intro he
      have := congrArg String.length he
      omega
    have hempty : ¬(jsSliceLast3 (s.buffer ++ toString d) = "") := by
      intro he
      have h0 := congrArg String.length he
      rw [hnl] at h0
      have hz : ("" : String).length = 0 := rfl
      omega
    rw [pushDialDigit_changed s d hsame]
    rcases Nat.lt_or_ge s.buffer.length 2 with hcase | hcase
    · have hshort : ¬((jsSliceLast3 (s.buffer ++ toString d)).length ≥ 3) := by
        omega
      rw [dialBufferEffect_short _ hempty hshort]
      exact ⟨rfl, fun _ => rfl, fun habs => by omega⟩
    · have heq2 : s.buffer.length = 2 := by omega
      have hlong : (jsSliceLast3 (s.buffer ++ toString d)).length ≥ 3 := by
        omega
      rw [dialBufferEffect_commit _ hempty hlong]
      exact ⟨rfl, fun habs => by omega, fun _ => ⟨rfl, rfl⟩⟩

/-- Witness for C6 instantiating the reachable-state clause at the empty
buffer: pushing 5 emits the uncommitted dial "5" first. -/
theorem dial_commit_spec_witness :
    (pushDialDigit initialDialState 5).2.head? =
      some (.dial (jsSliceLast3 ("" ++ toString 5)) false) :=
  (dial_commit_spec.2.2.2 initialDialState 5 (by decide) (by decide)).1

/-- Helper: the off-air filler loop tiles `[cursor, slotCount)` when given
enough fuel. -/
theorem offAirLoop_tiles (slotMinutes slotCount : Nat) :
    ∀ fuel cursor, slotCount - cursor ≤ fuel → cursor ≤ slotCount →
      tilesFrom slotCount cursor
        (offAirLoop slotMinutes slotCount fuel cursor) := by
  intro fuel
  induction fuel with
  | zero =>
    intro cursor h1 h2
    simp only [offAirLoop, tilesFrom]
    omega
  | succ n ih =>
    intro cursor h1 h2
    by_cases hc : cursor < slotCount
    · simp only [offAirLoop, if_pos hc]
      refine ⟨rfl, le_refl 1, ?_, ?_, ih (cursor + 1) (by omega) (by omega)⟩
      · show cursor = cursor + 1 - 1
        omega
      · show cursor + 1 ≤ slotCount
        omega
    · simp only [offAirLoop, if_neg hc, tilesFrom]
      omega

/-- Helper: the cyclic program loop tiles `[cursor, slotCount)` when given
enough fuel; every produced span is clipped into `[1, slotCount - cursor]`. -/
theorem buildScheduleGo_tiles (programs : List ManifestProgram)
    (slotCount slotMinutes : Nat) :
    ∀ fuel cursor programIndex, slotCount - cursor ≤ fuel →
      cursor ≤ slotCount →
      tilesFrom slotCount cursor
        (buildScheduleGo programs slotCount slotMinutes fuel cursor
          programIndex) := by
  intro fuel
  induction fuel with
  | zero =>
    intro cursor programIndex h1 h2
    simp only [buildScheduleGo, tilesFrom]
    omega
  | succ n ih =>
    intro cursor programIndex h1 h2
    by_cases hc : cursor < slotCount
    · have hsub : (1 : Int) ≤ (slotCount : Int) - (cursor : Int) := by omega
      have hmin1 : (1 : Int) ≤
          min (max 1 ((programs.getD (programIndex % programs.length)
            { title := "" }).duration_slots.getD 1))
            ((slotCount : Int) - (cursor : Int)) :=
        le_min (le_max_left _ _) hsub
      have hminle :
          min (max 1 ((programs.getD (programIndex % programs.length)
            { title := "" }).duration_slots.getD 1))
            ((slotCount : Int) - (cursor : Int)) ≤
            (slotCount : Int) - (cursor : Int) :=
        min_le_right _ _
      simp only [buildScheduleGo, if_pos hc]
      refine ⟨rfl, ?_, rfl, ?_, ?_⟩
      · show 1 ≤ (min (max 1 ((programs.getD (programIndex % programs.length)
          { title := "" }).duration_slots.getD 1))
          ((slotCount : Int) - (cursor : Int))).toNat
        omega
      · show cursor + (min (max 1 ((programs.getD
          (programIndex % programs.length)
          { title := "" }).duration_slots.getD 1))
          ((slotCount : Int) - (cursor : Int))).toNat ≤ slotCount
        omega
      · exact ih (cursor + (min (max 1 ((programs.getD
          (programIndex % programs.length)
          { title := "" }).duration_slots.getD 1))
          ((slotCount : Int) - (cursor : Int))).toNat) (programIndex + 1)
          (by omega) (by omega)
    · simp only [buildScheduleGo, if_neg hc, tilesFrom]
      omega

/-- Helper: in a tiling, every slot satisfies the `end = start + span - 1`
law with a positive span. -/
theorem tilesFrom_stop_span {slotCount : Nat} :
    ∀ {cursor : Nat} {l : List ProgramSlot}, tilesFrom slotCount cursor l →
      ∀ s ∈ l, s.stop = s.start + s.span - 1 ∧ 1 ≤ s.span := by
  intro cursor l
  induction l generalizing cursor with
  | nil => intro _ s hs; cases hs
  | cons a rest ih =>
    intro h s hs
    obtain ⟨hst, hsp, hstop, hle, ht⟩ := h
    rcases List.mem_cons.mp hs with rfl | hs2
    · exact ⟨by omega, hsp⟩
    · exact ih ht s hs2

/-- Helper: in a tiling, the spans sum to the width of the tiled range. -/
theorem tilesFrom_sum {slotCount : Nat} :
    ∀ {cursor : Nat} {l : List ProgramSlot}, tilesFrom slotCount cursor l →
      (l.map ProgramSlot.span).sum = slotCount - cursor := by
  intro cursor l
  induction l generalizing cursor with
  | nil => intro h; simp only [tilesFrom] at h; simp [h]
  | cons a rest ih =>
    intro h
    obtain ⟨hst, hsp, hstop, hle, ht⟩ := h
    have := ih ht
    simp only [List.map_cons, List.sum_cons, this]
    omega

/-- Helper: in a tiling, every slot starts at or after the cursor. -/
theorem tilesFrom_start_le {slotCount : Nat} :
    ∀ {cursor : Nat} {l : List ProgramSlot}, tilesFrom slotCount cursor l →
      ∀ s ∈ l, cursor ≤ s.start := by
  intro cursor l
  induction l generalizing cursor with
  | nil => intro _ s hs; cases hs
  | cons a rest ih =>
    intro h s hs
    obtain ⟨hst, hsp, hstop, hle, ht⟩ := h
    rcases List.mem_cons.mp hs with rfl | hs2
    · omega
    · have := ih ht s hs2; omega

/-- Helper: a tiling is strictly sorted by slot start. -/
theorem tilesFrom_pairwise {slotCount : Nat} :
    ∀ {cursor : Nat} {l : List ProgramSlot}, tilesFrom slotCount cursor l →
      l.Pairwise fun a b => a.start < b.start := by
  intro cursor l
  induction l generalizing cursor with
  | nil => intro _; exact List.Pairwise.nil
  | cons a rest ih =>
    intro h
    obtain ⟨hst, hsp, hstop, hle, ht⟩ := h
    refine List.Pairwise.cons (fun s hs => ?_) (ih ht)
    have := tilesFrom_start_le ht s hs
    omega

/-- Helper: consecutive slots of a tiling are adjacent
(`next.start = prev.end + 1`). -/
theorem tilesFrom_chain {slotCount : Nat} :
    ∀ {cursor : Nat} {l : List ProgramSlot}, tilesFrom slotCount cursor l →
      l.Chain' fun a b => b.start = a.stop + 1 := by
  intro cursor l
  induction l generalizing cursor with
  | nil => intro _; exact List.chain'_nil
  | cons a rest ih =>
    intro h
    obtain ⟨hst, hsp, hstop, hle, ht⟩ := h
    refine List.chain'_cons'.mpr ⟨fun b hb => ?_, ih ht⟩
    cases rest with
    | nil => cases hb
    | cons r t =>
      obtain ⟨hr, _, _, _, _⟩ := ht
      simp only [List.head?_cons, Option.mem_def, Option.some.injEq] at hb
      subst hb
      omega

/-- Helper: a tiling of a nonempty range is nonempty. -/
theorem tilesFrom_ne_nil {slotCount cursor : Nat} {l : List ProgramSlot}
    (h : tilesFrom slotCount cursor l) (hlt : cursor < slotCount) :
    l ≠ [] := by
  cases l with
  | nil => simp only [tilesFrom] at h; omega
  | cons a rest => exact List.cons_ne_nil a rest

/-- Helper: a tiling of a nonempty range starts at the cursor. -/
theorem tilesFrom_head_start {slotCount cursor : Nat} {l : List ProgramSlot}
    (h : tilesFrom slotCount cursor l) (hlt : cursor < slotCount) :
    l.head?.map ProgramSlot.start = some cursor := by
  cases l with
  | nil => simp only [tilesFrom] at h; omega
  | cons a rest =>
    obtain ⟨hst, _, _, _, _⟩ := h
    simp [hst]

/-- Helper: a nonempty tiling ends exactly at `slotCount - 1`. -/
theorem tilesFrom_last_stop {slotCount : Nat} :
    ∀ {cursor : Nat} {l : List ProgramSlot}, tilesFrom slotCount cursor l →
      l ≠ [] → l.getLast?.map ProgramSlot.stop = some (slotCount - 1) := by
  intro cursor l
  induction l generalizing cursor with
  | nil => intro _ hne; exact absurd rfl hne
  | cons a rest ih =>
    intro h _
    obtain ⟨hst, hsp, hstop, hle, ht⟩ := h
    cases rest with
    | nil =>
      simp only [tilesFrom] at ht
      simp only [List.getLast?_singleton, Option.map_some', Option.some.injEq]
      omega
    | cons r t =>
      rw [List.getLast?_cons_cons]
      exact ih ht (List.cons_ne_nil r t)

/-- C2: for `slotCount ≥ 1`, the schedule built by `buildSchedule` tiles
`[0, slotCount)` with no gaps and no overlaps: slots are strictly sorted by
start, each has `end = start + span - 1` with span at least 1, consecutive
slots are adjacent, the first slot starts at 0, the last ends at
`slotCount - 1`, and the spans sum to `slotCount`. -/
theorem buildSchedule_partitions (programs : List ManifestProgram)
    (slotCount slotMinutes : Nat) (hsc : 1 ≤ slotCount) :
    List.Pairwise (fun a b => a.start < b.start)
      (buildSchedule programs slotCount slotMinutes) ∧
    (∀ s ∈ buildSchedule programs slotCount slotMinutes,
      s.stop = s.start + s.span - 1 ∧ 1 ≤ s.span) ∧
    List.Chain' (fun a b => b.start = a.stop + 1)
      (buildSchedule programs slotCount slotMinutes) ∧
    (buildSchedule programs slotCount slotMinutes).head?.map
      ProgramSlot.start = some 0 ∧
    (buildSchedule programs slotCount slotMinutes).getLast?.map
      ProgramSlot.stop = some (slotCount - 1) ∧
    ((buildSchedule programs slotCount slotMinutes).map
      ProgramSlot.span).sum = slotCount := by
  have htiles : tilesFrom slotCount 0
      (buildSchedule programs slotCount slotMinutes) := by
    unfold buildSchedule
    split
    · exact offAirLoop_tiles slotMinutes slotCount slotCount 0 (by omega)
        (by omega)
    · exact buildScheduleGo_tiles programs slotCount slotMinutes slotCount 0 0
        (by omega) (by omega)
  have hlt : 0 < slotCount := hsc
  refine ⟨tilesFrom_pairwise htiles, tilesFrom_stop_span htiles,
    tilesFrom_chain htiles, tilesFrom_head_start htiles hlt,
    tilesFrom_last_stop htiles (tilesFrom_ne_nil htiles hlt), ?_⟩
  have := tilesFrom_sum htiles
  omega

/-- Witness for C2 at the single-program six-slot lineup: spans sum to 6 and
the last slot ends at 5. -/
theorem buildSchedule_partitions_witness :
    ((buildSchedule [{ title := "p", duration_slots := some 2 }] 6 30).map
      ProgramSlot.span).sum = 6 ∧
    (buildSchedule [{ title := "p", duration_slots := some 2 }] 6
      30).getLast?.map ProgramSlot.stop = some (6 - 1) :=
  ⟨(buildSchedule_partitions [{ title := "p", duration_slots := some 2 }] 6 30
      (by decide)).2.2.2.2.2,
    (buildSchedule_partitions [{ title := "p", duration_slots := some 2 }] 6 30
      (by decide)).2.2.2.2.1⟩

/-- Helper: `clamp` lands in `[lo, hi]` when the interval is nonempty. -/
theorem clamp_mem (v lo hi : Int) (h : lo ≤ hi) :
    lo ≤ clamp v lo hi ∧ clamp v lo hi ≤ hi :=
  ⟨le_min (le_max_right v lo) h, min_le_right _ _⟩

/-- Helper: `clamp` is monotone in its value argument. -/
theorem clamp_mono {v1 v2 : Int} (lo hi : Int) (h : v1 ≤ v2) :
    clamp v1 lo hi ≤ clamp v2 lo hi :=
  min_le_min (max_le_max h le_rfl) le_rfl

/-- Helper: clamping a nonpositive value into `[0, hi]` gives 0. -/
theorem clamp_of_nonpos {v : Int} (hi : Int) (hv : v ≤ 0) (hhi : 0 ≤ hi) :
    clamp v 0 hi = 0 := by
  unfold clamp
  rw [max_eq_right hv, min_eq_left hhi]

/-- C1: for `slotCount ≥ 1`, `getCurrentSlotIndex` always lands in
`[0, slotCount-1]`, is monotone as the time of day advances, returns 0 when
either time component of `startTime` fails to parse, and returns 0 when
`now` is before the start instant (negative elapsed time). -/
theorem getCurrentSlotIndex_spec (startTime : String)
    (slotMinutes slotCount : Int) (hsc : 1 ≤ slotCount) :
    (∀ msOfDay : Int,
      0 ≤ getCurrentSlotIndex msOfDay startTime slotMinutes slotCount ∧
      getCurrentSlotIndex msOfDay startTime slotMinutes slotCount ≤
        slotCount - 1) ∧
    (∀ t1 t2 : Int, t1 ≤ t2 →
      getCurrentSlotIndex t1 startTime slotMinutes slotCount ≤
        getCurrentSlotIndex t2 startTime slotMinutes slotCount) ∧
    ((jsParseInt (((jsSplitChar ':' startTime.toList).map String.mk).getD 0 "")
        = none ∨
      jsParseInt (((jsSplitChar ':' startTime.toList).map String.mk).getD 1 "")
        = none) →
      ∀ msOfDay : Int,
        getCurrentSlotIndex msOfDay startTime slotMinutes slotCount = 0) ∧
    (∀ startHour startMinute msOfDay : Int,
      jsParseInt (((jsSplitChar ':' startTime.toList).map String.mk).getD 0 "")
        = some startHour →
      jsParseInt (((jsSplitChar ':' startTime.toList).map String.mk).getD 1 "")
        = some startMinute →
      msOfDay < startHour * 3600000 + startMinute * 60000 →
      getCurrentSlotIndex msOfDay startTime slotMinutes slotCount = 0) := by
  have hhi : (0 : Int) ≤ max 0 (slotCount - 1) := le_max_left _ _
  have hmax : max 0 (slotCount - 1) = slotCount - 1 := max_eq_right (by omega)
  rcases h0 : jsParseInt
      (((jsSplitChar ':' startTime.toList).map String.mk).getD 0 "") with _ | sh
  · refine ⟨fun msOfDay => ?_, fun t1 t2 ht => ?_, fun _ msOfDay => ?_,
      fun sh sm msOfDay hsh hsm hneg => ?_⟩ <;>
      simp only [getCurrentSlotIndex, h0] <;> omega
  · rcases h1 : jsParseInt
        (((jsSplitChar ':' startTime.toList).map String.mk).getD 1 "") with _ | sm
    · refine ⟨fun msOfDay => ?_, fun t1 t2 ht => ?_, fun _ msOfDay => ?_,
        fun sh2 sm2 msOfDay hsh hsm hneg => ?_⟩ <;>
        simp only [getCurrentSlotIndex, h0, h1] <;> omega
    · by_cases hm : slotMinutes ≤ 0
      · refine ⟨fun msOfDay => ?_, fun t1 t2 ht => ?_, fun hcontr msOfDay => ?_,
          fun sh2 sm2 msOfDay hsh hsm hneg => ?_⟩ <;>
          simp only [getCurrentSlotIndex, h0, h1, if_pos hm] <;> omega
      · have hpos : (0 : Int) < slotMinutes * 60000 := by
          have h60 : (0 : Int) < slotMinutes := by omega
          positivity
        refine ⟨fun msOfDay => ?_, fun t1 t2 ht => ?_, fun hcontr msOfDay => ?_,
          fun sh2 sm2 msOfDay hsh hsm hneg => ?_⟩ <;>
          simp only [getCurrentSlotIndex, h0, h1, if_neg hm]
        · have h := clamp_mem (Int.fdiv (msOfDay - (sh * 3600000 + sm * 60000))
              (slotMinutes * 60000)) 0 (max 0 (slotCount - 1)) hhi
          exact ⟨h.1, h.2.trans (le_of_eq hmax)⟩
        · apply clamp_mono
          rw [Int.fdiv_eq_ediv _ (le_of_lt hpos),
            Int.fdiv_eq_ediv _ (le_of_lt hpos)]
          exact Int.ediv_le_ediv hpos (by omega)
        · rcases hcontr with hc | hc
          · exact absurd hc (by simp)
          · exact absurd hc (by simp)
        · obtain rfl : sh = sh2 := Option.some.inj hsh
          obtain rfl : sm = sm2 := Option.some.inj hsm
          have hdiff : msOfDay - (sh * 3600000 + sm * 60000) ≤ 0 := by omega
          have hdivle : Int.fdiv (msOfDay - (sh * 3600000 + sm * 60000))
              (slotMinutes * 60000) ≤ 0 := by
            rw [Int.fdiv_eq_ediv _ (le_of_lt hpos)]
            calc (msOfDay - (sh * 3600000 + sm * 60000)) / (slotMinutes * 60000)
                ≤ 0 / (slotMinutes * 60000) := Int.ediv_le_ediv hpos hdiff
              _ = 0 := Int.zero_ediv _
          exact clamp_of_nonpos _ hdivle hhi

/-- Witness for C1 at the spec example: 30-minute slots from "16:00"; at
17:05 the index is within `[0, 5]`, and at 15:00 (before start) it is 0. -/
theorem getCurrentSlotIndex_spec_witness :
    (0 ≤ getCurrentSlotIndex ((17 * 60 + 5) * 60000) "16:00" 30 6 ∧
      getCurrentSlotIndex ((17 * 60 + 5) * 60000) "16:00" 30 6 ≤ 6 - 1) ∧
    getCurrentSlotIndex ((15 * 60) * 60000) "16:00" 30 6 = 0 := by
  have h := getCurrentSlotIndex_spec "16:00" 30 6 (by decide)
  exact ⟨h.1 ((17 * 60 + 5) * 60000),
    h.2.2.2 16 0 ((15 * 60) * 60000) (by decide) (by decide) (by decide)⟩

end ChibaCable
